import Mathlib

/-!
# Verification of seer's core numerics against its specification

Shallow embedding of the two source files of the repository:

* `src/src/panglossStruct.cpp` — pairwise dissimilarity matrix (with a
  bounded queue of asynchronous workers) and metric MDS;
* `src/src/seerBinaryAssoc.cpp` — logistic association testing via a
  BFGS / Newton-Raphson / Firth cascade, and Wald inference.

`arma::mat` over `double` is modelled as `Matrix (Fin n) (Fin m) ℝ`;
`arma::vec` as `Fin n → ℝ`.  Where a claim is about IEEE-754 artefacts
(NaN / infinity), a local `Option ℝ` model is used, `none` standing for a
non-finite double.  The Firth branch of `newtonRaphson` contains armadillo
expressions whose operand dimensions disagree at run time; to embed those
faithfully an untyped matrix type `AMat` with run-time dimension checks
(returning `Except String`) mirrors armadillo's behaviour of throwing
`std::logic_error` on incompatible dimensions.
-/

namespace Seer

/-! ## Distance engine (`panglossStruct.cpp` lines 99-113) -/

/-- `distanceFunction` (line 110-113): `accu(abs(vec_1 - vec_2))`. -/
def distanceFunction {m : ℕ} (vec_1 vec_2 : Fin m → ℝ) : ℝ :=
  ∑ k, |vec_1 k - vec_2 k|

/-- `distance_element` (declared in the header, filled by `threadDistance`). -/
structure distance_element (n : ℕ) where
  row : Fin n
  col : Fin n
  distance : ℝ

/-- `threadDistance` (lines 99-108): package one pair's distance. -/
def threadDistance {n m : ℕ} (i j : Fin n) (row_1 row_2 : Fin m → ℝ) :
    distance_element n :=
  ⟨i, j, distanceFunction row_1 row_2⟩

/-- Write one cell of a square matrix (`dist(a, b) = v`). -/
def setCell {n : ℕ} (M : Matrix (Fin n) (Fin n) ℝ) (a b : Fin n) (v : ℝ) :
    Matrix (Fin n) (Fin n) ℝ :=
  fun i j => if i = a ∧ j = b then v else M i j

/-- Retire one finished work unit: `dist(d.row, d.col) = dist(d.col, d.row)
    = d.distance` (lines 77-78 and 92-93). -/
def applyElem {n : ℕ} (M : Matrix (Fin n) (Fin n) ℝ) (d : distance_element n) :
    Matrix (Fin n) (Fin n) ℝ :=
  setCell (setCell M d.row d.col d.distance) d.col d.row d.distance

/-- The upper-triangle traversal order of the double loop (lines 57-60):
    row-major, `j` from `i` to `n-1`. -/
def upperPairs (n : ℕ) : List (Fin n × Fin n) :=
  (List.finRange n).flatMap fun i =>
    ((List.finRange n).filter fun j => i ≤ j).map fun j => (i, j)

/-- Body of the `NO_THREAD` variant of the loop (lines 62-70): the diagonal
    is fixed at zero, an off-diagonal pair is computed synchronously and
    written to both symmetric cells. -/
def noThreadStep {n m : ℕ} (inMat : Matrix (Fin n) (Fin m) ℝ)
    (M : Matrix (Fin n) (Fin n) ℝ) (p : Fin n × Fin n) :
    Matrix (Fin n) (Fin n) ℝ :=
  if p.1 = p.2 then setCell M p.1 p.2 0
  else applyElem M (threadDistance p.1 p.2 (inMat p.1) (inMat p.2))

/-- The `NO_THREAD` traversal of lines 57-85: each pair computed
    synchronously in order.  `init` is the (uninitialised)
    `arma::mat dist(matSize, matSize)` the loop writes into.  This models
    the loop body only: the `NO_THREAD` translation unit as a whole does
    not compile, since the drain loop of lines 87-94 references
    `distance_calculations`, which lines 52-54 declare only under
    `#ifndef NO_THREAD`. -/
def noThreadTraversal {n m : ℕ} (inMat : Matrix (Fin n) (Fin m) ℝ)
    (init : Matrix (Fin n) (Fin n) ℝ) : Matrix (Fin n) (Fin n) ℝ :=
  (upperPairs n).foldl (noThreadStep inMat) init

/-- Body of the threaded variant (lines 62-83): the diagonal is fixed at
    zero; for an off-diagonal pair, when the in-flight queue already holds
    `threads` futures the front one is drained and written, then the pair's
    computation is enqueued.  A future's value is `threadDistance` applied
    to the two rows (the computation is pure, so the model carries the
    result in the queue). -/
def threadedStep {n m : ℕ} (threads : ℕ) (inMat : Matrix (Fin n) (Fin m) ℝ)
    (st : Matrix (Fin n) (Fin n) ℝ × List (distance_element n))
    (p : Fin n × Fin n) :
    Matrix (Fin n) (Fin n) ℝ × List (distance_element n) :=
  if p.1 = p.2 then (setCell st.1 p.1 p.2 0, st.2)
  else
    let drained :=
      if st.2.length = threads then
        match st.2 with
        | [] => (st.1, ([] : List (distance_element n)))
        | d :: rest => (applyElem st.1 d, rest)
      else st
    (drained.1, drained.2 ++ [threadDistance p.1 p.2 (inMat p.1) (inMat p.2)])

/-- The threaded traversal of `dissimiliarityMatrix` (lines 47-97):
    traverse the upper triangle keeping at most `threads` computations in
    flight, then drain the remaining queue (lines 87-94).  This is the
    traversal alone; the row-to-column conversions of lines 59 and 80 are
    accounted for in `dissimiliarityMatrix` below. -/
def threadedTraversal {n m : ℕ} (inMat : Matrix (Fin n) (Fin m) ℝ)
    (threads : ℕ) (init : Matrix (Fin n) (Fin n) ℝ) :
    Matrix (Fin n) (Fin n) ℝ :=
  let st := (upperPairs n).foldl (threadedStep threads inMat) (init, [])
  st.2.foldl applyElem st.1

/-- The closed form both variants compute: the Manhattan distance between
    rows (zero on the diagonal since `distanceFunction v v = 0`). -/
def manhattanDist {n m : ℕ} (inMat : Matrix (Fin n) (Fin m) ℝ) :
    Matrix (Fin n) (Fin n) ℝ :=
  fun i j => distanceFunction (inMat i) (inMat j)

end Seer

namespace Seer

/-! ### Basic facts about the distance function and cell writes -/

theorem distanceFunction_self {m : ℕ} (v : Fin m → ℝ) :
    distanceFunction v v = 0 := by
  simp [distanceFunction]

theorem distanceFunction_comm {m : ℕ} (v w : Fin m → ℝ) :
    distanceFunction v w = distanceFunction w v := by
  unfold distanceFunction
  exact Finset.sum_congr rfl fun k _ => abs_sub_comm _ _

/-- A pair of the traversal covers the cell `(a, b)` when the cell is one of
    the two cells that pair writes. -/
def covers {n : ℕ} (r : Fin n × Fin n) (a b : Fin n) : Prop :=
  (r.1 = a ∧ r.2 = b) ∨ (r.1 = b ∧ r.2 = a)

instance {n : ℕ} (r : Fin n × Fin n) (a b : Fin n) : Decidable (covers r a b) := by
  unfold covers; infer_instance

theorem setCell_same {n : ℕ} (M : Matrix (Fin n) (Fin n) ℝ) (a b : Fin n)
    (v : ℝ) : setCell M a b v a b = v := by
  simp [setCell]

theorem setCell_other {n : ℕ} (M : Matrix (Fin n) (Fin n) ℝ) (a b i j : Fin n)
    (v : ℝ) (h : ¬(i = a ∧ j = b)) : setCell M a b v i j = M i j := by
  simp only [setCell, if_neg h]

/-- What one `NO_THREAD` loop body does to an arbitrary cell. -/
theorem noThreadStep_cell {n m : ℕ} (inMat : Matrix (Fin n) (Fin m) ℝ)
    (M : Matrix (Fin n) (Fin n) ℝ) (r : Fin n × Fin n) (a b : Fin n) :
    noThreadStep inMat M r a b =
      if covers r a b then manhattanDist inMat a b else M a b := by
  rcases r with ⟨r1, r2⟩
  by_cases hd : r1 = r2
  · subst hd
    have hstep : noThreadStep inMat M (r1, r1) = setCell M r1 r1 0 := by
      unfold noThreadStep; simp
    rw [hstep]
    by_cases h1 : r1 = a ∧ r1 = b
    · obtain ⟨ha, hb⟩ := h1
      subst ha; subst hb
      simp [setCell, covers, manhattanDist, distanceFunction_self]
    · rw [setCell_other M _ _ _ _ _ (by tauto)]
      have : ¬ covers (r1, r1) a b := by
        unfold covers; simp only []; tauto
      rw [if_neg this]
  · unfold noThreadStep
    simp only [if_neg hd]
    unfold applyElem threadDistance
    by_cases h1 : a = r2 ∧ b = r1
    · obtain ⟨ha, hb⟩ := h1
      subst ha; subst hb
      rw [setCell_same]
      have : covers (b, a) a b := by unfold covers; tauto
      rw [if_pos this]
      simp only [manhattanDist]
      exact (distanceFunction_comm _ _).symm
    · rw [setCell_other _ _ _ _ _ _ (by tauto)]
      by_cases h2 : a = r1 ∧ b = r2
      · obtain ⟨ha, hb⟩ := h2
        subst ha; subst hb
        rw [setCell_same]
        have : covers (a, b) a b := by unfold covers; tauto
        rw [if_pos this]
        rfl
      · rw [setCell_other _ _ _ _ _ _ (by tauto)]
        have : ¬ covers (r1, r2) a b := by
          unfold covers
          rintro (⟨h, h'⟩ | ⟨h, h'⟩) <;> subst h <;> subst h' <;> tauto
        rw [if_neg this]

/-- What the whole `NO_THREAD` fold leaves in an arbitrary cell. -/
theorem noThread_foldl_cell {n m : ℕ} (inMat : Matrix (Fin n) (Fin m) ℝ)
    (L : List (Fin n × Fin n)) (a b : Fin n) :
    ∀ M, (L.foldl (noThreadStep inMat) M) a b =
      if ∃ r ∈ L, covers r a b then manhattanDist inMat a b else M a b := by
  induction L with
  | nil => intro M; simp
  | cons r rest ih =>
      intro M
      rw [List.foldl_cons, ih]
      rw [noThreadStep_cell]
      by_cases hrest : ∃ q ∈ rest, covers q a b
      · obtain ⟨q, hq, hcov⟩ := hrest
        rw [if_pos ⟨q, hq, hcov⟩, if_pos ⟨q, List.mem_cons_of_mem r hq, hcov⟩]
      · rw [if_neg hrest]
        by_cases hr : covers r a b
        · rw [if_pos hr, if_pos ⟨r, List.mem_cons_self r rest, hr⟩]
        · rw [if_neg hr, if_neg (by
            rintro ⟨q, hq, hcov⟩
            rcases List.mem_cons.mp hq with h | h
            · exact hr (h ▸ hcov)
            · exact hrest ⟨q, h, hcov⟩)]

/-- Every cell of the square matrix is covered by some traversal pair. -/
theorem upperPairs_covers {n : ℕ} (a b : Fin n) :
    ∃ r ∈ upperPairs n, covers r a b := by
  rcases le_total a b with h | h
  · refine ⟨(a, b), ?_, Or.inl ⟨rfl, rfl⟩⟩
    unfold upperPairs
    rw [List.mem_flatMap]
    exact ⟨a, List.mem_finRange a,
      List.mem_map.mpr ⟨b, List.mem_filter.mpr ⟨List.mem_finRange b, by simpa using h⟩, rfl⟩⟩
  · refine ⟨(b, a), ?_, Or.inr ⟨rfl, rfl⟩⟩
    unfold upperPairs
    rw [List.mem_flatMap]
    exact ⟨b, List.mem_finRange b,
      List.mem_map.mpr ⟨a, List.mem_filter.mpr ⟨List.mem_finRange a, by simpa using h⟩, rfl⟩⟩

/-- The `NO_THREAD` build equals the closed form, whatever the matrix's
    initial (uninitialised) contents. -/
theorem noThreadTraversal_eq {n m : ℕ}
    (inMat : Matrix (Fin n) (Fin m) ℝ) (init : Matrix (Fin n) (Fin n) ℝ) :
    noThreadTraversal inMat init = manhattanDist inMat := by
  funext a b
  unfold noThreadTraversal
  rw [noThread_foldl_cell, if_pos (upperPairs_covers a b)]

end Seer

namespace Seer

/-! ### The threaded build computes the same matrix -/

/-- Writes to distinct cells commute. -/
theorem setCell_comm {n : ℕ} (M : Matrix (Fin n) (Fin n) ℝ) (a b c d : Fin n)
    (v w : ℝ) (h : ¬(a = c ∧ b = d)) :
    setCell (setCell M a b v) c d w = setCell (setCell M c d w) a b v := by
  funext i j
  unfold setCell
  split_ifs with h1 h2
  · exact absurd ⟨h2.1.symm.trans h1.1, h2.2.symm.trans h1.2⟩ h
  all_goals rfl

/-- Retiring an off-diagonal work unit commutes with a diagonal write. -/
theorem applyElem_setCell_diag {n : ℕ} (M : Matrix (Fin n) (Fin n) ℝ)
    (d : distance_element n) (a : Fin n) (hd : d.row ≠ d.col) :
    applyElem (setCell M a a 0) d = setCell (applyElem M d) a a 0 := by
  unfold applyElem
  rw [setCell_comm M a a d.row d.col 0 d.distance
        (fun h => hd (h.1.symm.trans h.2)),
      setCell_comm _ a a d.col d.row 0 d.distance
        (fun h => hd (h.2.symm.trans h.1))]

/-- Draining a queue of off-diagonal work units commutes with a diagonal
    write. -/
theorem flush_setCell_diag {n : ℕ} (q : List (distance_element n))
    (hq : ∀ d ∈ q, d.row ≠ d.col) (M : Matrix (Fin n) (Fin n) ℝ) (a : Fin n) :
    q.foldl applyElem (setCell M a a 0) = setCell (q.foldl applyElem M) a a 0 := by
  induction q generalizing M with
  | nil => rfl
  | cons d rest ih =>
      simp only [List.foldl_cons]
      rw [applyElem_setCell_diag _ _ _ (hq d (List.mem_cons_self d rest)),
        ih (fun e he => hq e (List.mem_cons_of_mem _ he)) (applyElem M d)]

/-- Invariant of the threaded traversal: at every point, draining the
    in-flight queue onto the matrix yields exactly what the synchronous
    traversal of the pairs processed so far yields, and every queued work
    unit is off-diagonal. -/
theorem threaded_foldl_flush {n m : ℕ} (inMat : Matrix (Fin n) (Fin m) ℝ)
    (threads : ℕ) (L : List (Fin n × Fin n)) :
    ∀ M q, (∀ d ∈ q, d.row ≠ d.col) →
      ((L.foldl (threadedStep threads inMat) (M, q)).2.foldl applyElem
          (L.foldl (threadedStep threads inMat) (M, q)).1
        = L.foldl (noThreadStep inMat) (q.foldl applyElem M))
      ∧ ∀ d ∈ (L.foldl (threadedStep threads inMat) (M, q)).2, d.row ≠ d.col := by
  induction L with
  | nil => intro M q hq; exact ⟨rfl, hq⟩
  | cons p rest ih =>
      intro M q hq
      by_cases hp : p.1 = p.2
      · have hstep : threadedStep threads inMat (M, q) p = (setCell M p.1 p.2 0, q) := by
          unfold threadedStep; rw [if_pos hp]
        have hnt : noThreadStep inMat (q.foldl applyElem M) p
            = setCell (q.foldl applyElem M) p.1 p.2 0 := by
          unfold noThreadStep; rw [if_pos hp]
        rw [List.foldl_cons, List.foldl_cons, hstep, hnt]
        have := ih (setCell M p.1 p.2 0) q hq
        rw [hp] at this ⊢
        rwa [flush_setCell_diag q hq M p.2] at this
      · have hrowcol : (threadDistance p.1 p.2 (inMat p.1) (inMat p.2)).row
            ≠ (threadDistance p.1 p.2 (inMat p.1) (inMat p.2)).col := hp
        have hnt : noThreadStep inMat (q.foldl applyElem M) p
            = applyElem (q.foldl applyElem M)
                (threadDistance p.1 p.2 (inMat p.1) (inMat p.2)) := by
          unfold noThreadStep; rw [if_neg hp]
        rw [List.foldl_cons, List.foldl_cons, hnt]
        by_cases hlen : q.length = threads
        · match q, hq with
          | [], hq =>
              have hstep : threadedStep threads inMat (M, []) p
                  = (M, [threadDistance p.1 p.2 (inMat p.1) (inMat p.2)]) := by
                unfold threadedStep
                rw [if_neg hp]
                simp [hlen]
              rw [hstep]
              have := ih M [threadDistance p.1 p.2 (inMat p.1) (inMat p.2)]
                (by intro d hd; rw [List.mem_singleton] at hd; rw [hd]; exact hrowcol)
              simpa using this
          | d :: r, hq =>
              have hstep : threadedStep threads inMat (M, d :: r) p
                  = (applyElem M d,
                      r ++ [threadDistance p.1 p.2 (inMat p.1) (inMat p.2)]) := by
                unfold threadedStep
                rw [if_neg hp]
                simp [hlen]
              rw [hstep]
              have hq' : ∀ e ∈ r ++ [threadDistance p.1 p.2 (inMat p.1) (inMat p.2)],
                  e.row ≠ e.col := by
                intro e he
                rcases List.mem_append.mp he with h | h
                · exact hq e (List.mem_cons_of_mem _ h)
                · rw [List.mem_singleton] at h; rw [h]; exact hrowcol
              have := ih (applyElem M d)
                (r ++ [threadDistance p.1 p.2 (inMat p.1) (inMat p.2)]) hq'
              rw [List.foldl_append] at this
              simpa using this
        · have hstep : threadedStep threads inMat (M, q) p
              = (M, q ++ [threadDistance p.1 p.2 (inMat p.1) (inMat p.2)]) := by
            unfold threadedStep
            rw [if_neg hp]
            simp [hlen]
          rw [hstep]
          have hq' : ∀ e ∈ q ++ [threadDistance p.1 p.2 (inMat p.1) (inMat p.2)],
              e.row ≠ e.col := by
            intro e he
            rcases List.mem_append.mp he with h | h
            · exact hq e h
            · rw [List.mem_singleton] at h; rw [h]; exact hrowcol
          have := ih M (q ++ [threadDistance p.1 p.2 (inMat p.1) (inMat p.2)]) hq'
          rw [List.foldl_append] at this
          simpa using this

/-- The threaded build equals the closed form, for every worker count and
    every initial matrix content. -/
theorem threadedTraversal_eq_manhattan {n m : ℕ}
    (inMat : Matrix (Fin n) (Fin m) ℝ) (threads : ℕ)
    (init : Matrix (Fin n) (Fin n) ℝ) :
    threadedTraversal inMat threads init = manhattanDist inMat := by
  unfold threadedTraversal
  have h := threaded_foldl_flush inMat threads (upperPairs n) init []
    (by intro d hd; exact absurd hd (List.not_mem_nil d))
  simp only [List.foldl_nil] at h
  rw [h.1]
  exact noThreadTraversal_eq inMat init

end Seer

namespace Seer

/-- For 0/1 vectors the Manhattan distance counts differing positions. -/
theorem distanceFunction_binary {m : ℕ} (v w : Fin m → ℝ)
    (hv : ∀ k, v k = 0 ∨ v k = 1) (hw : ∀ k, w k = 0 ∨ w k = 1) :
    distanceFunction v w = (Finset.univ.filter fun k => v k ≠ w k).card := by
  unfold distanceFunction
  rw [Finset.card_filter]
  push_cast
  refine Finset.sum_congr rfl fun k _ => ?_
  rcases hv k with h1 | h1 <;> rcases hw k with h2 | h2 <;>
    rw [h1, h2] <;> norm_num

/-- What the traversal of lines 57-94 computes when every row conversion
    is admissible: for a binary input the matrix is symmetric, has zero
    diagonal, its `(i, j)` entry is the sum of absolute elementwise
    differences of rows `i` and `j`, and for binary rows that sum counts
    the differing positions. -/
theorem threadedTraversal_binary_spec {n m : ℕ}
    (inMat : Matrix (Fin n) (Fin m) ℝ) (threads : ℕ)
    (init : Matrix (Fin n) (Fin n) ℝ) (hT : 1 ≤ threads)
    (hbin : ∀ i k, inMat i k = 0 ∨ inMat i k = 1) :
    (∀ i j, threadedTraversal inMat threads init i j
        = threadedTraversal inMat threads init j i)
    ∧ (∀ i, threadedTraversal inMat threads init i i = 0)
    ∧ (∀ i j, threadedTraversal inMat threads init i j
        = ∑ k, |inMat i k - inMat j k|)
    ∧ (∀ i j, threadedTraversal inMat threads init i j
        = (Finset.univ.filter fun k => inMat i k ≠ inMat j k).card) := by
  rw [threadedTraversal_eq_manhattan]
  exact ⟨fun i j => distanceFunction_comm _ _,
    fun i => distanceFunction_self _,
    fun i j => rfl,
    fun i j => distanceFunction_binary _ _ (hbin i) (hbin j)⟩

/-- A concrete binary 2×2 matrix used by witnesses. -/
def onesMat2 : Matrix (Fin 2) (Fin 2) ℝ := fun _ _ => 1

/-- A concrete junk 2×2 matrix standing for uninitialised memory. -/
def junkMat2 : Matrix (Fin 2) (Fin 2) ℝ := fun _ _ => 37

/-- The intended traversals agree for every worker count and for any
    initial matrix contents: the bounded queue only delays writes to
    disjoint cells. -/
theorem traversal_worker_count_irrelevant {n m : ℕ}
    (inMat : Matrix (Fin n) (Fin m) ℝ) (threads : ℕ) (hT : 1 ≤ threads)
    (init : Matrix (Fin n) (Fin n) ℝ) :
    (threadedTraversal inMat threads init
      = noThreadTraversal inMat init)
    ∧ ∀ threads2 init2, 1 ≤ threads2 →
        threadedTraversal inMat threads2 init2
          = threadedTraversal inMat threads init := by
  refine ⟨?_, fun threads2 init2 _ => ?_⟩
  · rw [threadedTraversal_eq_manhattan, noThreadTraversal_eq]
  · rw [threadedTraversal_eq_manhattan, threadedTraversal_eq_manhattan]

/-! ### The run-time row-to-column conversion of lines 59, 69 and 80

`arma::vec ref_row = inMat.row(i)` (line 59; likewise `new_row` at line
80, and the reference binding at line 69 of the `NO_THREAD` body) assigns
a `1×m` row subview to a *column* vector.  Armadillo rejects the
conversion whenever the row has more than one element, throwing
`std::logic_error` from its column-vector layout check.  With at least
one row, the conversion at line 59 runs at `i = 0`, before any cell is
written or any work is queued, so the whole function throws; when no
conversion can fail (`m ≤ 1`, or `n = 0` so the loop body never runs)
the function performs the bounded-queue traversal `threadedTraversal`.
The queued `std::cref(new_row)` to a block-local vector is a further
lifetime defect the equations below do not reach, since the throw
precedes every schedule on the inputs they speak about. -/

/-- `dissimiliarityMatrix` (lines 47-97) as the program runs it. -/
noncomputable def dissimiliarityMatrix {n m : ℕ}
    (inMat : Matrix (Fin n) (Fin m) ℝ) (threads : ℕ)
    (init : Matrix (Fin n) (Fin n) ℝ) :
    Except String (Matrix (Fin n) (Fin n) ℝ) :=
  if 0 < n ∧ 1 < m then
    .error "Mat::init(): requested size is not compatible with column vector layout"
  else .ok (threadedTraversal inMat threads init)

/-- The conversion error fires on every input with a row and more than
    one column. -/
theorem dissimiliarityMatrix_throws {n m : ℕ}
    (inMat : Matrix (Fin n) (Fin m) ℝ) (threads : ℕ)
    (init : Matrix (Fin n) (Fin n) ℝ) (hn : 0 < n) (hm : 1 < m) :
    dissimiliarityMatrix inMat threads init
      = .error "Mat::init(): requested size is not compatible with column vector layout" := by
  unfold dissimiliarityMatrix
  rw [if_pos ⟨hn, hm⟩]

/-- C3: for every binary input matrix with at least one row and more than
    one column — every matrix the spec intends the engine for — and every
    worker count `T ≥ 1`, the dissimilarity computation throws the
    row-to-column conversion error of line 59 and returns no matrix, so
    the claimed symmetric zero-diagonal Hamming matrix is never produced.
    (`threadedTraversal_binary_spec` is what the traversal would compute
    but for the conversion.) -/
theorem dissimiliarity_row_conversion_throws {n m : ℕ}
    (inMat : Matrix (Fin n) (Fin m) ℝ) (threads : ℕ)
    (init : Matrix (Fin n) (Fin n) ℝ) (hT : 1 ≤ threads)
    (hbin : ∀ i k, inMat i k = 0 ∨ inMat i k = 1)
    (hn : 0 < n) (hm : 1 < m) :
    dissimiliarityMatrix inMat threads init
      = .error "Mat::init(): requested size is not compatible with column vector layout" :=
  dissimiliarityMatrix_throws inMat threads init hn hm

/-- Witness for C3 at the binary 2×2 all-ones matrix with one worker. -/
theorem dissimiliarity_row_conversion_throws_witness :
    dissimiliarityMatrix onesMat2 1 junkMat2
      = .error "Mat::init(): requested size is not compatible with column vector layout" :=
  dissimiliarity_row_conversion_throws onesMat2 1 junkMat2 (le_refl 1)
    (fun _ _ => Or.inr rfl) (by norm_num) (by norm_num)

/-- C4: there is no synchronous result to compare against — the
    `NO_THREAD` build does not compile, its drain loop (lines 87-94)
    referencing `distance_calculations`, declared only under
    `#ifndef NO_THREAD` (lines 52-54) — and the threaded build throws the
    line-59 conversion error for every input with a row and more than one
    column, identically for every worker count and initial contents; the
    evidently intended traversals do agree for every worker count
    (`traversal_worker_count_irrelevant`). -/
theorem worker_count_comparison_throws {n m : ℕ}
    (inMat : Matrix (Fin n) (Fin m) ℝ) (threads : ℕ)
    (init : Matrix (Fin n) (Fin n) ℝ) (hT : 1 ≤ threads)
    (hn : 0 < n) (hm : 1 < m) :
    dissimiliarityMatrix inMat threads init
      = .error "Mat::init(): requested size is not compatible with column vector layout"
    ∧ (∀ threads2 init2, dissimiliarityMatrix inMat threads2 init2
        = dissimiliarityMatrix inMat threads init)
    ∧ noThreadTraversal inMat init = threadedTraversal inMat threads init := by
  refine ⟨dissimiliarityMatrix_throws inMat threads init hn hm, ?_, ?_⟩
  · intro threads2 init2
    rw [dissimiliarityMatrix_throws inMat threads init hn hm,
      dissimiliarityMatrix_throws inMat threads2 init2 hn hm]
  · rw [threadedTraversal_eq_manhattan, noThreadTraversal_eq]

/-- Witness for C4 at the 2×2 all-ones matrix with one worker. -/
theorem worker_count_comparison_throws_witness :
    dissimiliarityMatrix onesMat2 1 junkMat2
      = .error "Mat::init(): requested size is not compatible with column vector layout"
    ∧ (∀ threads2 init2, dissimiliarityMatrix onesMat2 threads2 init2
        = dissimiliarityMatrix onesMat2 1 junkMat2)
    ∧ noThreadTraversal onesMat2 junkMat2 = threadedTraversal onesMat2 1 junkMat2 :=
  worker_count_comparison_throws onesMat2 1 junkMat2 (le_refl 1)
    (by norm_num) (by norm_num)

end Seer

namespace Seer

/-! ## MDS engine (`panglossStruct.cpp` lines 10-44) -/

/-- `arma::square` (line 24): elementwise square. -/
def squareM {n : ℕ} (M : Matrix (Fin n) (Fin n) ℝ) : Matrix (Fin n) (Fin n) ℝ :=
  fun i j => M i j ^ 2

/-- The centering matrix `J = I - n⁻¹·𝟙𝟙ᵀ` (lines 27-28). -/
noncomputable def centeringJ (n : ℕ) : Matrix (Fin n) (Fin n) ℝ :=
  fun i j => (if i = j then 1 else 0) - 1 / (n : ℝ)

/-- Result of `arma::eig_sym` (line 37): the eigenvalues (armadillo returns
    them sorted ascending) and the matrix whose columns are the
    corresponding eigenvectors. -/
structure EigSym (n : ℕ) where
  eigval : Fin n → ℝ
  eigvec : Matrix (Fin n) (Fin n) ℝ

/-- `arma::fliplr` (line 41): reverse the column order. -/
def fliplr {n p : ℕ} (M : Matrix (Fin n) (Fin p) ℝ) : Matrix (Fin n) (Fin p) ℝ :=
  fun i j => M i j.rev

/-- Steps 2-5 of `metricMDS` (lines 26-43) on a computed dissimilarity
    matrix `D`: square the entries, double-centre (`B = -0.5·J·P²·J` with
    `J = I - n⁻¹·𝟙𝟙ᵀ`), eigendecompose, scale each eigenvector by the
    square root of its eigenvalue, reverse the column order (largest
    eigenvalue first) and keep the first `dimensions` columns
    (`mds.cols(0, dimensions - 1)`). -/
noncomputable def mdsSteps {n : ℕ} (eig_sym : Matrix (Fin n) (Fin n) ℝ → EigSym n)
    (D : Matrix (Fin n) (Fin n) ℝ) (dimensions : ℕ) (hd : dimensions ≤ n) :
    Matrix (Fin n) (Fin dimensions) ℝ :=
  let P := squareM D
  let J := centeringJ n
  let B := (-0.5 : ℝ) • (J * P * J)
  let e := eig_sym B
  let mds := fliplr (e.eigvec * Matrix.diagonal fun k => Real.sqrt (e.eigval k))
  fun i j => mds i (Fin.castLE hd j)

/-- `metricMDS` (lines 10-44) as the program runs it, parameterised over
    the external armadillo eigendecomposition routine `eig_sym`: step 1
    (line 24) calls `dissimiliarityMatrix`, whose row-to-column conversion
    throws for every population matrix with a row and more than one
    column, and the exception propagates out of `metricMDS`; otherwise
    steps 2-5 run on the computed matrix. -/
noncomputable def metricMDS {n m : ℕ} (eig_sym : Matrix (Fin n) (Fin n) ℝ → EigSym n)
    (populationMatrix : Matrix (Fin n) (Fin m) ℝ) (threads : ℕ)
    (init : Matrix (Fin n) (Fin n) ℝ) (dimensions : ℕ)
    (hd : dimensions ≤ n) : Except String (Matrix (Fin n) (Fin dimensions) ℝ) :=
  match dissimiliarityMatrix populationMatrix threads init with
  | .error e => .error e
  | .ok D => .ok (mdsSteps eig_sym D dimensions hd)

/-- The pipeline entry formula of steps 2-5: entry `(i, j)` is the `i`-th
    component of the eigenvector of `B = -0.5·J·P²·J` at reversed position
    `n - 1 - j` (largest eigenvalue of the ascending decomposition first),
    scaled by the square root of the matching eigenvalue. -/
theorem mdsSteps_entry {n : ℕ} (eig_sym : Matrix (Fin n) (Fin n) ℝ → EigSym n)
    (D : Matrix (Fin n) (Fin n) ℝ) (dimensions : ℕ) (hd : dimensions ≤ n)
    (i : Fin n) (j : Fin dimensions) :
    mdsSteps eig_sym D dimensions hd i j
      = (eig_sym ((-0.5 : ℝ) • (centeringJ n * squareM D * centeringJ n))).eigvec
          i (Fin.rev (Fin.castLE hd j))
        * Real.sqrt ((eig_sym ((-0.5 : ℝ) • (centeringJ n * squareM D
            * centeringJ n))).eigval (Fin.rev (Fin.castLE hd j))) := by
  unfold mdsSteps
  unfold fliplr
  rw [Matrix.mul_diagonal]

/-- When no row conversion can fail, `metricMDS` returns the pipeline
    output applied to the traversal's matrix. -/
theorem metricMDS_ok_of_narrow {n m : ℕ}
    (eig_sym : Matrix (Fin n) (Fin n) ℝ → EigSym n)
    (populationMatrix : Matrix (Fin n) (Fin m) ℝ) (threads : ℕ)
    (init : Matrix (Fin n) (Fin n) ℝ) (dimensions : ℕ)
    (hd : dimensions ≤ n) (h : ¬(0 < n ∧ 1 < m)) :
    metricMDS eig_sym populationMatrix threads init dimensions hd
      = .ok (mdsSteps eig_sym (threadedTraversal populationMatrix threads init)
          dimensions hd) := by
  unfold metricMDS dissimiliarityMatrix
  rw [if_neg h]

/-- The concrete eigendecomposition stub the C5 witness instantiates
    `eig_sym` with: the diagonal as "eigenvalues", the identity as
    "eigenvectors". -/
def eigDiag2 : Matrix (Fin 2) (Fin 2) ℝ → EigSym 2 := fun B => ⟨fun k => B k k, 1⟩

/-- C5: for every population matrix with at least one row and more than
    one column — and any `1 ≤ dimensions ≤ n` and worker count `T ≥ 1` —
    `metricMDS` throws inside its distance stage (line 24, the
    row-to-column conversion of line 59) and returns no embedding, so the
    claimed pipeline output is never produced.  The pipeline of steps 2-5
    itself computes exactly the claimed entries (`mdsSteps_entry`), but on
    such inputs it is unreachable. -/
theorem metricMDS_throws_in_distance_stage {n m : ℕ}
    (eig_sym : Matrix (Fin n) (Fin n) ℝ → EigSym n)
    (populationMatrix : Matrix (Fin n) (Fin m) ℝ) (threads : ℕ)
    (init : Matrix (Fin n) (Fin n) ℝ) (dimensions : ℕ)
    (hT : 1 ≤ threads) (hd1 : 1 ≤ dimensions) (hd : dimensions ≤ n)
    (hn : 0 < n) (hm : 1 < m) :
    metricMDS eig_sym populationMatrix threads init dimensions hd
      = .error "Mat::init(): requested size is not compatible with column vector layout" := by
  unfold metricMDS
  rw [dissimiliarityMatrix_throws populationMatrix threads init hn hm]

/-- Witness for C5 at the 2×2 all-ones population matrix, one worker, one
    requested dimension. -/
theorem metricMDS_throws_in_distance_stage_witness :
    metricMDS eigDiag2 onesMat2 1 junkMat2 1 (show (1:ℕ) ≤ 2 by norm_num)
      = .error "Mat::init(): requested size is not compatible with column vector layout" :=
  metricMDS_throws_in_distance_stage eigDiag2 onesMat2 1 junkMat2 1
    (le_refl 1) (le_refl 1) (show (1:ℕ) ≤ 2 by norm_num)
    (by norm_num) (by norm_num)

/-! ### IEEE view of the unguarded square root (line 41) -/

/-- IEEE-754 `sqrt` of a double: NaN — modelled as `none` — for a negative
    argument, the real square root otherwise. -/
noncomputable def sqrtIEEE (x : ℝ) : Option ℝ := if x < 0 then none else some (Real.sqrt x)

/-- Entry `(i, j)` of the embedding `fliplr(eigvec * diagmat(sqrt(eigval)))
    .cols(0, dimensions-1)` under IEEE semantics for the unguarded
    `sqrt(eigval)`: `none` models a NaN entry, and multiplying an
    eigenvector entry by NaN stays NaN. -/
noncomputable def metricMDSEntryIEEE {n : ℕ} (e : EigSym n) (dimensions : ℕ)
    (hd : dimensions ≤ n) (i : Fin n) (j : Fin dimensions) : Option ℝ :=
  Option.map (fun s => e.eigvec i (Fin.rev (Fin.castLE hd j)) * s)
    (sqrtIEEE (e.eigval (Fin.rev (Fin.castLE hd j))))

/-- When the eigenvalue is nonnegative the IEEE entry is the real-model
    entry: the `Option ℝ` view only departs on negative eigenvalues. -/
theorem metricMDSEntryIEEE_nonneg {n : ℕ} (e : EigSym n) (dimensions : ℕ)
    (hd : dimensions ≤ n) (i : Fin n) (j : Fin dimensions)
    (hpos : 0 ≤ e.eigval (Fin.rev (Fin.castLE hd j))) :
    metricMDSEntryIEEE e dimensions hd i j
      = some (fliplr (e.eigvec * Matrix.diagonal fun k => Real.sqrt (e.eigval k))
          i (Fin.castLE hd j)) := by
  unfold metricMDSEntryIEEE sqrtIEEE fliplr
  rw [if_neg (not_lt.mpr hpos), Matrix.mul_diagonal]
  rfl

/-- C9: a kept embedding column whose eigenvalue is negative holds NaN
    entries — the square root is applied with no guard or clamping, so the
    entry is not a real number and in particular is not zero. -/
theorem metricMDS_negative_eigval_nan {n : ℕ} (e : EigSym n) (dimensions : ℕ)
    (hd : dimensions ≤ n) (i : Fin n) (j : Fin dimensions)
    (hneg : e.eigval (Fin.rev (Fin.castLE hd j)) < 0) :
    metricMDSEntryIEEE e dimensions hd i j = none
    ∧ metricMDSEntryIEEE e dimensions hd i j ≠ some 0 := by
  have h : metricMDSEntryIEEE e dimensions hd i j = none := by
    unfold metricMDSEntryIEEE sqrtIEEE
    rw [if_pos hneg]
    rfl
  exact ⟨h, by rw [h]; exact fun hc => Option.noConfusion hc⟩

/-- Witness for C9: an eigendecomposition with eigenvalue −1 on every
    coordinate, two samples, one kept dimension. -/
theorem metricMDS_negative_eigval_nan_witness :
    metricMDSEntryIEEE (⟨fun _ => -1, 1⟩ : EigSym 2) 1
        (show (1:ℕ) ≤ 2 by norm_num) (0 : Fin 2) (0 : Fin 1) = none
    ∧ metricMDSEntryIEEE (⟨fun _ => -1, 1⟩ : EigSym 2) 1
        (show (1:ℕ) ≤ 2 by norm_num) (0 : Fin 2) (0 : Fin 1)
      ≠ some 0 :=
  metricMDS_negative_eigval_nan ⟨fun _ => -1, 1⟩ 1
    (show (1:ℕ) ≤ 2 by norm_num) 0 0 (by norm_num)

end Seer

namespace Seer

/-! ## Logit fitter (`seerBinaryAssoc.cpp`) -/

/-- `predictLogitProbs` (lines 195-201): `y = 1/(1 + exp(-(x*b)))`. -/
noncomputable def predictLogitProbs {n p : ℕ} (x : Matrix (Fin n) (Fin p) ℝ)
    (b : Fin p → ℝ) : Fin n → ℝ :=
  fun i => 1 / (1 + Real.exp (-(x.mulVec b i)))

/-- Modelled from the spec: `inv_covar`, the linear-algebra inversion
    primitive invoked at lines 102, 110 and 191, whose own code is not
    among the repository's source files.  The spec describes it as matrix
    inversion with a pseudo-inverse fallback for singular input; on
    invertible input — the only case the claims exercise — that is the
    matrix inverse. -/
noncomputable def inv_covar {p : ℕ} (A : Matrix (Fin p) (Fin p) ℝ) :
    Matrix (Fin p) (Fin p) ℝ := A⁻¹

/-- The weight vector `y_pred % (1 - y_pred)` (lines 102, 174). -/
noncomputable def logitWeights {n p : ℕ} (x : Matrix (Fin n) (Fin p) ℝ)
    (b : Fin p → ℝ) : Fin n → ℝ :=
  fun i => predictLogitProbs x b i * (1 - predictLogitProbs x b i)

/-- The Fisher information matrix `Xᵗ·diag(p(1-p))·X` at `b` (line 102). -/
noncomputable def fisherInfo {n p : ℕ} (x : Matrix (Fin n) (Fin p) ℝ)
    (b : Fin p → ℝ) : Matrix (Fin p) (Fin p) ℝ :=
  x.transpose * Matrix.diagonal (logitWeights x b) * x

/-- Modelled from the spec: the standard normal CDF `Φ`. -/
noncomputable def stdNormalCDF (x : ℝ) : ℝ :=
  ∫ t in Set.Iic x, Real.exp (-(t ^ 2) / 2) / Real.sqrt (2 * Real.pi)

/-- Modelled from the spec: `normalPval` (line 64, code not among the
    sources) — the two-sided upper tail `2·(1 - Φ(W))` of the standard
    normal at the Wald statistic. -/
noncomputable def normalPval (W : ℝ) : ℝ := 2 * (1 - stdNormalCDF W)

/-- `mean(y_train)`. -/
noncomputable def vecMean {n : ℕ} (y : Fin n → ℝ) : ℝ := (∑ i, y i) / n

/-- The starting intercept `log(mean(y)/(1 - mean(y)))` shared by every
    stage (lines 31 and 92). -/
noncomputable def startIntercept {n : ℕ} (y : Fin n → ℝ) : ℝ :=
  Real.log (vecMean y / (1 - vecMean y))

/-- The BFGS starting point (lines 29-36): the starting intercept at index
    0, every other coefficient 1. -/
noncomputable def bfgsStartingPoint {n : ℕ} (p : ℕ) (y : Fin n → ℝ) :
    Fin (p+2) → ℝ :=
  fun i => if i = 0 then startIntercept y else 1

/-- The Newton-Raphson starting point (lines 91-92): zeros, then the
    starting intercept at index 0. -/
noncomputable def nrStartingPoint {n : ℕ} (p : ℕ) (y : Fin n → ℝ) :
    Fin (p+2) → ℝ :=
  fun i => if i = 0 then startIntercept y else 0

/-- `varCovarMat` (lines 163-192), the information matrix: filled over the
    upper triangle only with `I(i,j) = accu(y_trans % x.col(i) % x.col(j))`
    and mirrored onto the lower triangle (`I(j,i) = I(i,j)`). -/
noncomputable def varCovarInformation {n p : ℕ} (x : Matrix (Fin n) (Fin p) ℝ)
    (b : Fin p → ℝ) : Matrix (Fin p) (Fin p) ℝ :=
  fun i j =>
    if i ≤ j then ∑ k, logitWeights x b k * x k i * x k j
    else ∑ k, logitWeights x b k * x k j * x k i

/-- `varCovarMat` (lines 163-192): the inverse of the mirrored information
    matrix. -/
noncomputable def varCovarMat {n p : ℕ} (x : Matrix (Fin n) (Fin p) ℝ)
    (b : Fin p → ℝ) : Matrix (Fin p) (Fin p) ℝ :=
  inv_covar (varCovarInformation x b)

/-- One plain Newton-Raphson update (lines 98-121, `firth == false`):
    `b1 = b0 + inv_covar(XᵗWX)·Xᵗ·(y - p)`. -/
noncomputable def nrStep {n p : ℕ} (y_train : Fin n → ℝ)
    (x_design : Matrix (Fin n) (Fin p) ℝ) (b0 : Fin p → ℝ) : Fin p → ℝ :=
  b0 + (inv_covar (fisherInfo x_design b0)).mulVec
    (x_design.transpose.mulVec (y_train - predictLogitProbs x_design b0))

/-! ### Untyped armadillo matrices for the Firth branch

The expressions of lines 107 and 115 combine operands whose run-time
dimensions disagree; armadillo checks dimensions at run time and throws
`std::logic_error` on a mismatch, so those lines are embedded over an
untyped matrix type whose operations return `Except String`. -/

/-- An armadillo matrix as the run time sees it: dimensions plus entries
    (entries outside the dimensions are junk). -/
structure AMat where
  rows : ℕ
  cols : ℕ
  entry : ℕ → ℕ → ℝ

/-- `arma` matrix product: throws on an inner-dimension mismatch. -/
noncomputable def AMat.mul (A B : AMat) : Except String AMat :=
  if A.cols = B.rows then
    .ok ⟨A.rows, B.cols, fun i j => ∑ k ∈ Finset.range A.cols,
      A.entry i k * B.entry k j⟩
  else .error "matrix multiplication: incompatible matrix dimensions"

/-- `arma` elementwise product `%`: throws unless the dimensions agree. -/
noncomputable def AMat.schur (A B : AMat) : Except String AMat :=
  if A.rows = B.rows ∧ A.cols = B.cols then
    .ok ⟨A.rows, A.cols, fun i j => A.entry i j * B.entry i j⟩
  else .error "elementwise multiplication: incompatible matrix dimensions"

/-- `arma` matrix sum: throws unless the dimensions agree. -/
noncomputable def AMat.add (A B : AMat) : Except String AMat :=
  if A.rows = B.rows ∧ A.cols = B.cols then
    .ok ⟨A.rows, A.cols, fun i j => A.entry i j + B.entry i j⟩
  else .error "addition: incompatible matrix dimensions"

/-- `arma` matrix difference: throws unless the dimensions agree. -/
noncomputable def AMat.sub (A B : AMat) : Except String AMat :=
  if A.rows = B.rows ∧ A.cols = B.cols then
    .ok ⟨A.rows, A.cols, fun i j => A.entry i j - B.entry i j⟩
  else .error "subtraction: incompatible matrix dimensions"

/-- Scalar minus matrix (`1 - y_pred`), elementwise, never throws. -/
noncomputable def AMat.scalarSub (c : ℝ) (A : AMat) : AMat :=
  ⟨A.rows, A.cols, fun i j => c - A.entry i j⟩

/-- `arma` transpose. -/
noncomputable def AMat.transpose (A : AMat) : AMat :=
  ⟨A.cols, A.rows, fun i j => A.entry j i⟩

/-- `arma::diagmat`: a column or row vector fills a diagonal matrix; a
    square matrix keeps its diagonal with the rest zeroed; anything else
    throws. -/
noncomputable def AMat.diagmat (A : AMat) : Except String AMat :=
  if A.cols = 1 then
    .ok ⟨A.rows, A.rows, fun i j => if i = j then A.entry i 0 else 0⟩
  else if A.rows = 1 then
    .ok ⟨A.cols, A.cols, fun i j => if i = j then A.entry 0 j else 0⟩
  else if A.rows = A.cols then
    .ok ⟨A.rows, A.cols, fun i j => if i = j then A.entry i j else 0⟩
  else .error "diagmat: given matrix must be square sized"

/-- `arma::sqrt`: elementwise square root, never throws. -/
noncomputable def AMat.sqrtE (A : AMat) : AMat :=
  ⟨A.rows, A.cols, fun i j => Real.sqrt (A.entry i j)⟩

/-- `inv_covar` on an untyped matrix: requires a square argument. -/
noncomputable def AMat.invCovar (A : AMat) : Except String AMat :=
  if A.rows = A.cols then
    .ok ⟨A.rows, A.rows, fun i j =>
      if h : i < A.rows ∧ j < A.rows then
        (Matrix.of fun a b : Fin A.rows => A.entry a b)⁻¹ ⟨i, h.1⟩ ⟨j, h.2⟩
      else 0⟩
  else .error "inv: given matrix must be square sized"

/-- A typed column vector as an untyped `n × 1` matrix. -/
noncomputable def AMat.ofVec {n : ℕ} (v : Fin n → ℝ) : AMat :=
  ⟨n, 1, fun i _ => if h : i < n then v ⟨i, h⟩ else 0⟩

/-- A typed matrix as an untyped matrix. -/
noncomputable def AMat.ofMatrix {n p : ℕ} (M : Matrix (Fin n) (Fin p) ℝ) : AMat :=
  ⟨n, p, fun i j => if h : i < n ∧ j < p then M ⟨i, h.1⟩ ⟨j, h.2⟩ else 0⟩

/-- The Firth branch of lines 103-115, exactly as the source writes it:
    `W = diagmat(y_pred * (1 - y_pred))` — a matrix *product* of two `n×1`
    columns — then `H = √W·X·inv_covar(Xᵗ·W·X)·Xᵗ·√W`, and
    `b1 += var_covar_mat * (y_train - y_pred + diagmat(H) % (0.5 - y_pred))`.
    Each armadillo operator throws on a dimension mismatch. -/
noncomputable def firthUpdate (y_train y_pred x_design var_covar_mat b1 : AMat) :
    Except String AMat := do
  let W ← AMat.diagmat (← AMat.mul y_pred (AMat.scalarSub 1 y_pred))
  let xtW ← AMat.mul (AMat.transpose x_design) W
  let xtWx ← AMat.mul xtW x_design
  let inv ← AMat.invCovar xtWx
  let H1 ← AMat.mul (AMat.sqrtE W) x_design
  let H2 ← AMat.mul H1 inv
  let H3 ← AMat.mul H2 (AMat.transpose x_design)
  let H ← AMat.mul H3 (AMat.sqrtE W)
  let correction : AMat := ⟨y_train.rows, 1, fun _ _ => 0.5⟩
  let resid ← AMat.sub y_train y_pred
  let corr2 ← AMat.sub correction y_pred
  let dH ← AMat.diagmat H
  let prod ← AMat.schur dH corr2
  let sum ← AMat.add resid prod
  let upd ← AMat.mul var_covar_mat sum
  AMat.add b1 upd

/-- One Firth iteration (lines 98-121, `firth == true`): line 102 computes
    `var_covar_mat = inv_covar(XᵗWX)` (well typed), then the Firth update
    expression runs; a dimension error there propagates as a C++
    exception. -/
noncomputable def firthStep {n p : ℕ} (y_train : Fin n → ℝ)
    (x_design : Matrix (Fin n) (Fin (p+2)) ℝ) (b0 : Fin (p+2) → ℝ) :
    Except String (Fin (p+2) → ℝ) := do
  let y_pred := predictLogitProbs x_design b0
  let var_covar_mat := inv_covar (fisherInfo x_design b0)
  let b1 ← firthUpdate (AMat.ofVec y_train) (AMat.ofVec y_pred)
    (AMat.ofMatrix x_design) (AMat.ofMatrix var_covar_mat) (AMat.ofVec b0)
  .ok fun i => b1.entry i 0

end Seer

namespace Seer

/-- The per-feature mutable result fields of a `Kmer` record: fitted
    coefficient, standard error, p-value (`none` = never written) and the
    ordered diagnostic comments. -/
structure KmerState where
  beta : Option ℝ
  standard_error : Option ℝ
  p_val : Option ℝ
  comments : List String

/-- `k.add_comment(c)`: append a diagnostic tag. -/
def KmerState.addComment (k : KmerState) (c : String) : KmerState :=
  { k with comments := k.comments ++ [c] }

/-- A `Kmer` as created before fitting: no results, no comments. -/
def initKmer : KmerState := ⟨none, none, none, []⟩

/-- The `for` loop of `newtonRaphson` (lines 96-127) over an arbitrary
    per-iteration update that may throw: `parameter_iterations` kept
    most-recent-first (`List.headI` is the C++ `back()`); each iteration
    computes `b1` from `b0 = back()`, pushes it, and breaks when
    `|b1(1) - b0(1)| < convergence_limit`. -/
noncomputable def nrLoopE {p : ℕ}
    (step : (Fin (p+2) → ℝ) → Except String (Fin (p+2) → ℝ))
    (convergence_limit : ℝ) :
    ℕ → List (Fin (p+2) → ℝ) → Except String (List (Fin (p+2) → ℝ))
  | 0, acc => .ok acc
  | fuel+1, acc =>
      match step acc.headI with
      | .error e => .error e
      | .ok b1 =>
          if |b1 1 - acc.headI 1| < convergence_limit then .ok (b1 :: acc)
          else nrLoopE step convergence_limit fuel (b1 :: acc)

/-- The same loop for a total (never-throwing) update. -/
noncomputable def nrLoop {p : ℕ} (step : (Fin (p+2) → ℝ) → (Fin (p+2) → ℝ))
    (convergence_limit : ℝ) :
    ℕ → List (Fin (p+2) → ℝ) → List (Fin (p+2) → ℝ)
  | 0, acc => acc
  | fuel+1, acc =>
      if |step acc.headI 1 - acc.headI 1| < convergence_limit
      then step acc.headI :: acc
      else nrLoop step convergence_limit fuel (step acc.headI :: acc)

theorem nrLoopE_ok {p : ℕ} (step : (Fin (p+2) → ℝ) → (Fin (p+2) → ℝ))
    (convergence_limit : ℝ) (fuel : ℕ) (acc : List (Fin (p+2) → ℝ)) :
    nrLoopE (fun b => .ok (step b)) convergence_limit fuel acc
      = .ok (nrLoop step convergence_limit fuel acc) := by
  induction fuel generalizing acc with
  | zero => rfl
  | succ fuel ih =>
      have hred : nrLoopE (fun b => Except.ok (step b)) convergence_limit
          (fuel+1) acc
          = if |step acc.headI 1 - acc.headI 1| < convergence_limit
            then Except.ok (step acc.headI :: acc)
            else nrLoopE (fun b => Except.ok (step b)) convergence_limit fuel
              (step acc.headI :: acc) := rfl
      rw [hred]
      unfold nrLoop
      by_cases h : |step acc.headI 1 - acc.headI 1| < convergence_limit
      · rw [if_pos h, if_pos h]
      · rw [if_neg h, if_neg h, ih]

/-- Outcome of a fitting call: the (possibly updated) `Kmer` record and,
    when the call let a C++ exception escape, that exception. -/
structure FitOutcome where
  kmer : KmerState
  thrown : Option String

/-- The reporting branch (lines 145-159): `beta` from the last iterate,
    the standard error as `pow(var_covar_mat(1,1), 0.5)` where
    `var_covar_mat` is the inverse information computed at the start of
    the last executed iteration — i.e. at the second-to-last iterate —
    then the Wald statistic `|beta|/se` and its p-value. -/
noncomputable def nrReport {n p : ℕ} (x_design : Matrix (Fin n) (Fin (p+2)) ℝ)
    (iters : List (Fin (p+2) → ℝ)) (k : KmerState) : KmerState :=
  let beta := iters.headI 1
  let se := Real.sqrt (inv_covar (fisherInfo x_design iters.tail.headI) 1 1)
  { k with
    beta := some beta
    standard_error := some se
    p_val := some (normalPval (|beta| / se)) }

/-- `newtonRaphson` with `firth == true` (lines 79-160): the loop with the
    Firth update; an exception in an iteration propagates to the caller
    leaving the record as it was.  If the loop finishes, the
    `parameter_iterations.size() == max_nr_iterations` check decides
    between the `"firth-fail"` tag (line 142) and reporting. -/
noncomputable def newtonRaphsonFirth {n p : ℕ} (y_train : Fin n → ℝ)
    (x_design : Matrix (Fin n) (Fin (p+2)) ℝ) (max_nr_iterations : ℕ)
    (convergence_limit : ℝ) (k : KmerState) : FitOutcome :=
  match nrLoopE (firthStep y_train x_design) convergence_limit
      max_nr_iterations [nrStartingPoint p y_train] with
  | .error e => ⟨k, some e⟩
  | .ok iters =>
      if iters.length = max_nr_iterations then
        ⟨k.addComment "firth-fail", none⟩
      else ⟨nrReport x_design iters k, none⟩

/-- `newtonRaphson` with `firth == false` (lines 79-160): run the plain
    loop from the Newton-Raphson starting point; when
    `parameter_iterations.size() == max_nr_iterations` tag `"nr-fail"`
    (line 137) and recurse with `firth = 1`, otherwise report. -/
noncomputable def newtonRaphson {n p : ℕ} (y_train : Fin n → ℝ)
    (x_design : Matrix (Fin n) (Fin (p+2)) ℝ) (max_nr_iterations : ℕ)
    (convergence_limit : ℝ) (k : KmerState) : FitOutcome :=
  let iters := nrLoop (nrStep y_train x_design) convergence_limit
      max_nr_iterations [nrStartingPoint p y_train]
  if iters.length = max_nr_iterations then
    newtonRaphsonFirth y_train x_design max_nr_iterations convergence_limit
      (k.addComment "nr-fail")
  else ⟨nrReport x_design iters k, none⟩

/-- Result of the dlib BFGS call (lines 42-45, an external dlib routine):
    either the maximising coefficient vector left in `starting_point`, or
    a thrown exception. -/
inductive BfgsOutcome (p : ℕ) where
  | found (b : Fin (p+2) → ℝ)
  | thrown

/-- `doLogit` (lines 26-77): prepend an intercept column of ones to form
    the design matrix; on BFGS success report `beta = b(1)`, the standard
    error `sqrt(varCovarMat(x_design, b)(1,1))` at the fitted
    coefficients, and the p-value of the Wald statistic `|b_1|/se`; on a
    thrown exception tag `"bfgs-fail"` (line 74) and fall back to
    `newtonRaphson`. -/
noncomputable def doLogit {n p : ℕ} (bfgs : BfgsOutcome p)
    (y_train : Fin n → ℝ) (x_train : Matrix (Fin n) (Fin (p+1)) ℝ)
    (max_nr_iterations : ℕ) (convergence_limit : ℝ) (k : KmerState) :
    FitOutcome :=
  let x_design : Matrix (Fin n) (Fin (p+2)) ℝ :=
    fun i j => Fin.cases 1 (fun j' => x_train i j') j
  match bfgs with
  | .found b =>
      let se := Real.sqrt (varCovarMat x_design b 1 1)
      ⟨{ k with
          beta := some (b 1)
          standard_error := some se
          p_val := some (normalPval (|b 1| / se)) }, none⟩
  | .thrown =>
      newtonRaphson y_train x_design max_nr_iterations convergence_limit
        (k.addComment "bfgs-fail")

end Seer

namespace Seer

/-! ### A concrete fit: `y = (0, 1)`, design matrix `[[1,0],[1,1]]`

At the Newton-Raphson starting point all predicted probabilities are
`1/2`, so the first update is exact rational arithmetic: it produces the
iterate `(-2, 4)`.  With `convergence_limit = 5` the loop breaks at its
first iteration; with `convergence_limit = 0` it can never break. -/

/-- The response `y = (0, 1)`. -/
noncomputable def yEx : Fin 2 → ℝ := fun i => if i = 0 then 0 else 1

/-- The feature column `x = (0, 1)` (the feature equals the response). -/
noncomputable def xTrainEx : Matrix (Fin 2) (Fin 1) ℝ := fun i _ => yEx i

/-- The design matrix `[[1, 0], [1, 1]]` (intercept column prepended). -/
noncomputable def xDesignEx : Matrix (Fin 2) (Fin 2) ℝ :=
  fun i j => if j = 0 then 1 else yEx i

/-- The iterate after one plain Newton-Raphson update: `(-2, 4)`. -/
noncomputable def b1Ex : Fin 2 → ℝ := fun i => if i = 0 then -2 else 4

theorem vecMean_yEx : vecMean yEx = 1 / 2 := by
  unfold vecMean yEx
  rw [Fin.sum_univ_two]
  norm_num

theorem startIntercept_yEx : startIntercept yEx = 0 := by
  unfold startIntercept
  rw [vecMean_yEx]
  norm_num

theorem nrStartingPoint_yEx : nrStartingPoint 0 yEx = fun _ => 0 := by
  funext i
  unfold nrStartingPoint
  rw [startIntercept_yEx]
  split_ifs <;> rfl

theorem predictLogitProbs_zero :
    predictLogitProbs xDesignEx (fun _ => 0) = fun _ => 1 / 2 := by
  funext i
  unfold predictLogitProbs
  have h : xDesignEx.mulVec (fun _ => 0) i = 0 := by
    unfold Matrix.mulVec Matrix.dotProduct
    simp
  rw [h]
  norm_num

theorem fisherInfo_zeroEx :
    fisherInfo xDesignEx (fun _ => 0) = !![1/2, 1/4; 1/4, 1/4] := by
  have hw : logitWeights xDesignEx (fun _ => 0) = fun _ => 1 / 4 := by
    funext i
    unfold logitWeights
    rw [predictLogitProbs_zero]
    norm_num
  funext i j
  unfold fisherInfo
  rw [Matrix.mul_apply]
  simp only [Matrix.mul_apply, Matrix.diagonal, Matrix.transpose_apply, hw,
    Matrix.of_apply, Fin.sum_univ_two]
  fin_cases i <;> fin_cases j <;>
    norm_num [xDesignEx, yEx] <;> rfl

theorem inv_covar_fisherInfo_zeroEx :
    inv_covar (fisherInfo xDesignEx (fun _ => 0)) = !![4, -4; -4, 8] := by
  rw [fisherInfo_zeroEx]
  unfold inv_covar
  apply Matrix.inv_eq_right_inv
  funext i j
  rw [Matrix.mul_apply]
  fin_cases i <;> fin_cases j <;>
    simp [Fin.sum_univ_two, Matrix.one_apply] <;> norm_num

theorem nrStepEx : nrStep yEx xDesignEx (fun _ => 0) = b1Ex := by
  funext i
  unfold nrStep
  rw [inv_covar_fisherInfo_zeroEx, predictLogitProbs_zero]
  unfold Matrix.mulVec Matrix.dotProduct
  simp only [Matrix.transpose_apply, Fin.sum_univ_two, Pi.add_apply, Pi.sub_apply]
  fin_cases i <;> norm_num [xDesignEx, yEx, b1Ex]

theorem b1Ex_one : b1Ex 1 = 4 := by
  unfold b1Ex
  norm_num

end Seer

namespace Seer

theorem nrLoopEx (fuel : ℕ) :
    nrLoop (nrStep yEx xDesignEx) 5 (fuel+1) [fun _ => 0] = [b1Ex, fun _ => 0] := by
  unfold nrLoop
  simp only [List.headI, nrStepEx, b1Ex_one]
  norm_num

/-- With a nonpositive convergence limit the loop can never break, so it
    always consumes all its iterations. -/
theorem nrLoop_length_nonpos {p : ℕ}
    (step : (Fin (p+2) → ℝ) → (Fin (p+2) → ℝ)) (conv : ℝ) (hconv : conv ≤ 0)
    (fuel : ℕ) : ∀ acc, (nrLoop step conv fuel acc).length = fuel + acc.length := by
  induction fuel with
  | zero => intro acc; rw [Nat.zero_add]; rfl
  | succ fuel ih =>
      intro acc
      unfold nrLoop
      rw [if_neg (not_lt.mpr (le_trans hconv (abs_nonneg _))), ih]
      simp only [List.length_cons]
      omega

/-- C2's core fact: the Firth update expression of lines 107-115 throws a
    dimension error on every input with at least two samples — the product
    `y_pred * (1 - y_pred)` multiplies an `n×1` column by an `n×1` column.
    The spec's update `b + (XᵗWX)⁻¹·[Xᵗ(y−p) + diag(H)·(0.5−p)]` is never
    computed. -/
theorem firthStep_always_throws {n p : ℕ} (y : Fin n → ℝ)
    (x : Matrix (Fin n) (Fin (p+2)) ℝ) (b0 : Fin (p+2) → ℝ) (hn : 2 ≤ n) :
    firthStep y x b0
      = .error "matrix multiplication: incompatible matrix dimensions" := by
  have hmul : AMat.mul (AMat.ofVec (predictLogitProbs x b0))
      (AMat.scalarSub 1 (AMat.ofVec (predictLogitProbs x b0)))
      = .error "matrix multiplication: incompatible matrix dimensions" := by
    simp only [AMat.mul, AMat.ofVec, AMat.scalarSub]
    rw [if_neg (by omega : ¬((1:ℕ) = n))]
  simp only [firthStep, firthUpdate]
  rw [hmul]
  rfl

/-- The Firth loop dies in its first iteration on the concrete fit. -/
theorem nrLoopE_firthEx (conv : ℝ) (m : ℕ) (acc : List (Fin 2 → ℝ)) :
    nrLoopE (firthStep yEx xDesignEx) conv (m+1) acc
      = .error "matrix multiplication: incompatible matrix dimensions" := by
  unfold nrLoopE
  rw [firthStep_always_throws yEx xDesignEx _ (by norm_num)]

/-- The Firth stage on the concrete fit: the record is returned unchanged
    with the dimension error propagating. -/
theorem newtonRaphsonFirthEx (k : KmerState) (conv : ℝ) (m : ℕ) :
    newtonRaphsonFirth yEx xDesignEx (m+1) conv k
      = ⟨k, some "matrix multiplication: incompatible matrix dimensions"⟩ := by
  unfold newtonRaphsonFirth
  rw [nrLoopE_firthEx]

/-- `newtonRaphson` on the concrete fit with `max_nr_iterations = 2`:
    the loop converged at its first iteration, yet
    `parameter_iterations.size() == 2` so the fit is tagged `"nr-fail"`
    and escalated to the (crashing) Firth stage. -/
theorem newtonRaphsonEx_nrfail (k : KmerState) :
    newtonRaphson yEx xDesignEx 2 5 k
      = ⟨k.addComment "nr-fail",
          some "matrix multiplication: incompatible matrix dimensions"⟩ := by
  unfold newtonRaphson
  rw [nrStartingPoint_yEx, nrLoopEx 1, if_pos (by simp)]
  exact newtonRaphsonFirthEx (k.addComment "nr-fail") 5 1

/-- `newtonRaphson` on the concrete fit with `max_nr_iterations = 3`: the
    same converged run reports its results. -/
theorem newtonRaphsonEx_report (k : KmerState) :
    newtonRaphson yEx xDesignEx 3 5 k
      = ⟨nrReport xDesignEx [b1Ex, fun _ => 0] k, none⟩ := by
  unfold newtonRaphson
  rw [nrStartingPoint_yEx, nrLoopEx 2, if_neg (by simp)]

/-- The reported values of the concrete converged fit: the `(1,1)` entry of
    the inverse information at the second-to-last iterate `(0,0)` is `8`. -/
theorem nrReportEx (k : KmerState) :
    nrReport xDesignEx [b1Ex, fun _ => 0] k
      = { k with
          beta := some 4
          standard_error := some (Real.sqrt 8)
          p_val := some (normalPval (4 / Real.sqrt 8)) } := by
  unfold nrReport
  rw [show ([b1Ex, (fun _ => 0 : Fin 2 → ℝ)].tail.headI)
      = (fun _ => 0 : Fin 2 → ℝ) from rfl]
  rw [show ([b1Ex, (fun _ => 0 : Fin 2 → ℝ)].headI) = b1Ex from rfl]
  rw [inv_covar_fisherInfo_zeroEx, b1Ex_one]
  norm_num [Matrix.cons_val_one, Matrix.head_cons]

end Seer

namespace Seer

/-! ### The information matrix at the fitted iterate `(-2, 4)`

At `b = (-2, 4)` the linear predictors are `(-2, 2)`, so both logistic
weights equal `w = e²/(1+e²)²` and the inverse information's `(1,1)` entry
is `2/w` — which differs from the `8` the code reports, since `e² ≠ 1`. -/

/-- The common logistic weight at the fitted iterate. -/
noncomputable def wEx : ℝ := Real.exp 2 / (1 + Real.exp 2) ^ 2

theorem one_add_exp_two_ne : (1 : ℝ) + Real.exp 2 ≠ 0 := by
  have := Real.exp_pos 2
  linarith

theorem wEx_pos : 0 < wEx := by
  unfold wEx
  have h1 := Real.exp_pos 2
  have h2 : (0:ℝ) < (1 + Real.exp 2) ^ 2 := by positivity
  positivity

theorem predictLogitProbs_b1Ex :
    predictLogitProbs xDesignEx b1Ex
      = fun i => if i = 0 then 1 / (1 + Real.exp 2)
          else Real.exp 2 / (1 + Real.exp 2) := by
  funext i
  unfold predictLogitProbs Matrix.mulVec Matrix.dotProduct
  fin_cases i <;> norm_num [Fin.sum_univ_two, xDesignEx, yEx, b1Ex]
  rw [Real.exp_neg]
  have h : Real.exp 2 ≠ 0 := ne_of_gt (Real.exp_pos 2)
  have h2 := one_add_exp_two_ne
  have h3 : (1:ℝ) + (Real.exp 2)⁻¹ ≠ 0 := by
    have hp : 0 < (Real.exp 2)⁻¹ := by positivity
    linarith
  field_simp
  ring

theorem logitWeights_b1Ex : logitWeights xDesignEx b1Ex = fun _ => wEx := by
  funext i
  unfold logitWeights wEx
  simp only [predictLogitProbs_b1Ex]
  have h := Real.exp_pos 2
  have h2 : (1 : ℝ) + Real.exp 2 ≠ 0 := one_add_exp_two_ne
  by_cases hi : i = 0
  · rw [if_pos hi]
    field_simp
    ring
  · rw [if_neg hi]
    field_simp
    ring

theorem fisherInfo_b1Ex :
    fisherInfo xDesignEx b1Ex = !![2 * wEx, wEx; wEx, wEx] := by
  funext i j
  unfold fisherInfo
  rw [Matrix.mul_apply]
  simp only [Matrix.mul_apply, Matrix.diagonal, Matrix.transpose_apply,
    logitWeights_b1Ex, Matrix.of_apply, Fin.sum_univ_two]
  fin_cases i <;> fin_cases j <;>
    norm_num [xDesignEx, yEx] <;> ring

theorem inv_covar_fisherInfo_b1Ex :
    inv_covar (fisherInfo xDesignEx b1Ex)
      = !![1 / wEx, -1 / wEx; -1 / wEx, 2 / wEx] := by
  rw [fisherInfo_b1Ex]
  unfold inv_covar
  apply Matrix.inv_eq_right_inv
  have hw : wEx ≠ 0 := ne_of_gt wEx_pos
  funext i j
  rw [Matrix.mul_apply]
  fin_cases i <;> fin_cases j <;>
    simp [Fin.sum_univ_two, Matrix.one_apply] <;> field_simp <;> ring

theorem eight_ne_two_div_wEx : (8 : ℝ) ≠ 2 / wEx := by
  intro h
  have hw := wEx_pos
  have h2 : (1 : ℝ) + Real.exp 2 ≠ 0 := one_add_exp_two_ne
  have h8 : 8 * wEx = 2 := by
    rw [h, div_mul_cancel₀ _ (ne_of_gt hw)]
  unfold wEx at h8
  have key : 8 * Real.exp 2 = 2 * (1 + Real.exp 2) ^ 2 := by
    field_simp at h8
    linarith
  have hsq : (Real.exp 2 - 1) ^ 2 = 0 := by
    linear_combination (-1/2 : ℝ) * key
  have he1 : Real.exp 2 - 1 = 0 :=
    (pow_eq_zero_iff (by norm_num : (2:ℕ) ≠ 0)).mp hsq
  have hone : (1:ℝ) < Real.exp 2 := Real.one_lt_exp_iff.mpr (by norm_num)
  linarith

theorem sqrt_eight_ne_sqrt_two_div_wEx :
    Real.sqrt 8 ≠ Real.sqrt (2 / wEx) := by
  intro h
  apply eight_ne_two_div_wEx
  have hw : (0:ℝ) < 2 / wEx := div_pos (by norm_num) wEx_pos
  have h8 : (8 : ℝ) = Real.sqrt 8 ^ 2 := (Real.sq_sqrt (by norm_num)).symm
  have hw2 : (2 / wEx) = Real.sqrt (2 / wEx) ^ 2 := (Real.sq_sqrt hw.le).symm
  rw [h8, hw2, h]

end Seer

namespace Seer

/-- The reduced form of `newtonRaphson` on the never-converging run
    (`convergence_limit = 0`): all iterations are consumed,
    `size() = 3 ≠ 2 = max_nr_iterations`, so the fit is *reported*. -/
theorem newtonRaphsonEx_noconv :
    newtonRaphson yEx xDesignEx 2 0 initKmer
      = ⟨nrReport xDesignEx
          (nrLoop (nrStep yEx xDesignEx) 0 2 [nrStartingPoint 0 yEx]) initKmer,
          none⟩ := by
  unfold newtonRaphson
  rw [if_neg (by rw [nrLoop_length_nonpos _ _ le_rfl]; norm_num)]

/-- C1: the `parameter_iterations.size() == max_nr_iterations` check of
    line 133 miscounts.  On the concrete fit with `max_nr_iterations = 2`
    and `convergence_limit = 5` the loop breaks at its first iteration with
    `|b1(1) - b0(1)| = 4 < 5`, yet the list then holds exactly 2 iterates,
    so the converged fit is tagged `"nr-fail"` and escalated; conversely
    with `convergence_limit = 0` the change is never below the threshold,
    the cap is exhausted (3 = 2 + 1 iterates), `3 ≠ 2`, and the
    unconverged fit is reported as a success with no tag. -/
theorem nr_failure_check_miscounts :
    (|b1Ex 1 - nrStartingPoint 0 yEx 1| < 5
      ∧ nrLoop (nrStep yEx xDesignEx) 5 2 [nrStartingPoint 0 yEx]
          = [b1Ex, nrStartingPoint 0 yEx]
      ∧ (newtonRaphson yEx xDesignEx 2 5 initKmer).kmer.comments = ["nr-fail"])
    ∧ ((nrLoop (nrStep yEx xDesignEx) 0 2 [nrStartingPoint 0 yEx]).length = 3
      ∧ (newtonRaphson yEx xDesignEx 2 0 initKmer).kmer.comments = []
      ∧ (newtonRaphson yEx xDesignEx 2 0 initKmer).kmer.beta.isSome = true
      ∧ (newtonRaphson yEx xDesignEx 2 0 initKmer).thrown = none) := by
  refine ⟨⟨?_, ?_, ?_⟩, ?_, ?_, ?_, ?_⟩
  · simp only [nrStartingPoint_yEx, b1Ex_one]
    norm_num
  · rw [nrStartingPoint_yEx]
    exact nrLoopEx 1
  · rw [newtonRaphsonEx_nrfail]
    rfl
  · rw [nrLoop_length_nonpos _ _ le_rfl]
    rfl
  · rw [newtonRaphsonEx_noconv]
    rfl
  · rw [newtonRaphsonEx_noconv]
    rfl
  · rw [newtonRaphsonEx_noconv]

/-- C2: on every fit with at least two samples, the Firth-stage iteration
    of lines 103-115 throws an armadillo dimension error instead of
    applying the update `b + (XᵗWX)⁻¹·[Xᵗ(y−p) + diag(H)·(0.5−p)]`: the
    expression `diagmat(y_pred * (1 - y_pred))` multiplies an `n×1` matrix
    by an `n×1` matrix. -/
theorem firth_update_dimension_error {n p : ℕ} (y : Fin n → ℝ)
    (x : Matrix (Fin n) (Fin (p+2)) ℝ) (b0 : Fin (p+2) → ℝ) (hn : 2 ≤ n) :
    firthStep y x b0
      = .error "matrix multiplication: incompatible matrix dimensions" :=
  firthStep_always_throws y x b0 hn

/-- Witness for C2: the concrete two-sample fit at the iterate `(-2, 4)`. -/
theorem firth_update_dimension_error_witness :
    firthStep yEx xDesignEx b1Ex
      = .error "matrix multiplication: incompatible matrix dimensions" :=
  firth_update_dimension_error yEx xDesignEx b1Ex (by norm_num)

/-- The design matrix `doLogit` builds from the concrete feature column. -/
theorem doLogit_designEx :
    (fun i j => Fin.cases 1 (fun j' => xTrainEx i j') j
      : Matrix (Fin 2) (Fin 2) ℝ) = xDesignEx := by
  funext i j
  refine Fin.cases ?_ ?_ j
  · simp [xDesignEx]
  · intro j'
    rw [Fin.cases_succ]
    have hj : (j'.succ : Fin 2) ≠ 0 := Fin.succ_ne_zero j'
    simp [xDesignEx, xTrainEx, hj]

/-- C7: the cascade on the concrete fit where BFGS throws,
    `max_nr_iterations = 2`, `convergence_limit = 5`: `"bfgs-fail"` and
    `"nr-fail"` are appended in order, the Firth stage then throws a
    dimension error that escapes `doLogit`, no `"firth-fail"` tag is ever
    written, and the feature gets no coefficient, standard error or
    p-value. -/
theorem cascade_firth_crash :
    doLogit BfgsOutcome.thrown yEx xTrainEx 2 5 initKmer
      = ⟨⟨none, none, none, ["bfgs-fail", "nr-fail"]⟩,
          some "matrix multiplication: incompatible matrix dimensions"⟩ := by
  have hred : doLogit BfgsOutcome.thrown yEx xTrainEx 2 5 initKmer
      = newtonRaphson yEx
          (fun i j => Fin.cases 1 (fun j' => xTrainEx i j') j) 2 5
          (initKmer.addComment "bfgs-fail") := rfl
  rw [hred, doLogit_designEx, newtonRaphsonEx_nrfail]
  rfl

/-- C6 counterexample: the concrete converged Newton-Raphson fit (cap 3,
    threshold 5) reports `β = b1Ex 1 = 4` with standard error `√8`, the
    inverse information at the *second-to-last* iterate `(0,0)`; the
    inverse information at the *fitted* coefficients `(-2,4)` has `(1,1)`
    entry `2·(1+e²)²/e² ≠ 8`, so the claimed standard error differs from
    the reported one. -/
theorem se_not_at_fitted_counterexample :
    (newtonRaphson yEx xDesignEx 3 5 initKmer).kmer.beta = some (b1Ex 1)
    ∧ (newtonRaphson yEx xDesignEx 3 5 initKmer).kmer.standard_error
        = some (Real.sqrt 8)
    ∧ Real.sqrt 8 ≠ Real.sqrt (inv_covar (fisherInfo xDesignEx b1Ex) 1 1) := by
  refine ⟨?_, ?_, ?_⟩
  · rw [newtonRaphsonEx_report, nrReportEx, b1Ex_one]
  · rw [newtonRaphsonEx_report, nrReportEx]
  · rw [inv_covar_fisherInfo_b1Ex]
    have hentry : (!![1 / wEx, -1 / wEx; -1 / wEx, 2 / wEx]
        : Matrix (Fin 2) (Fin 2) ℝ) 1 1 = 2 / wEx := by
      simp [Matrix.cons_val_one, Matrix.head_cons]
    rw [hentry]
    exact sqrt_eight_ne_sqrt_two_div_wEx

end Seer

namespace Seer

/-- C6 (amended): after a successful gradient-stage fit the standard error
    is the square root of entry `(1,1)` of `varCovarMat` — the inverse of
    the information matrix computed over its upper triangle only, mirrored
    onto the lower triangle — at the fitted coefficients, and that
    information matrix equals `XᵗWX`; after a successful Newton-Raphson
    fit the standard error is the square root of entry `(1,1)` of the
    inverse information evaluated at the *second-to-last* iterate; in both
    paths the Wald statistic is `|β₁|/se` and the p-value is `2·(1−Φ(W))`. -/
theorem wald_inference_formulas {n p : ℕ} (y_train : Fin n → ℝ)
    (x_train : Matrix (Fin n) (Fin (p+1)) ℝ) (b bv : Fin (p+2) → ℝ)
    (x : Matrix (Fin n) (Fin (p+2)) ℝ) (max_nr_iterations : ℕ)
    (convergence_limit : ℝ) (k : KmerState)
    (hsucc : (nrLoop (nrStep y_train x) convergence_limit max_nr_iterations
        [nrStartingPoint p y_train]).length ≠ max_nr_iterations) :
    ((doLogit (BfgsOutcome.found b) y_train x_train max_nr_iterations
        convergence_limit k).kmer.beta = some (b 1)
    ∧ (doLogit (BfgsOutcome.found b) y_train x_train max_nr_iterations
        convergence_limit k).kmer.standard_error
      = some (Real.sqrt (varCovarMat
          (fun i j => Fin.cases 1 (fun j' => x_train i j') j) b 1 1))
    ∧ (doLogit (BfgsOutcome.found b) y_train x_train max_nr_iterations
        convergence_limit k).kmer.p_val
      = some (normalPval (|b 1| / Real.sqrt (varCovarMat
          (fun i j => Fin.cases 1 (fun j' => x_train i j') j) b 1 1))))
    ∧ varCovarInformation x bv = fisherInfo x bv
    ∧ (∀ W, normalPval W = 2 * (1 - stdNormalCDF W))
    ∧ ((newtonRaphson y_train x max_nr_iterations convergence_limit k).kmer.beta
        = some ((nrLoop (nrStep y_train x) convergence_limit max_nr_iterations
            [nrStartingPoint p y_train]).headI 1)
    ∧ (newtonRaphson y_train x max_nr_iterations convergence_limit k).kmer.standard_error
        = some (Real.sqrt (inv_covar (fisherInfo x
            (nrLoop (nrStep y_train x) convergence_limit max_nr_iterations
              [nrStartingPoint p y_train]).tail.headI) 1 1))
    ∧ (newtonRaphson y_train x max_nr_iterations convergence_limit k).kmer.p_val
        = some (normalPval
            (|(nrLoop (nrStep y_train x) convergence_limit max_nr_iterations
                [nrStartingPoint p y_train]).headI 1|
              / Real.sqrt (inv_covar (fisherInfo x
                  (nrLoop (nrStep y_train x) convergence_limit max_nr_iterations
                    [nrStartingPoint p y_train]).tail.headI) 1 1)))) := by
  refine ⟨⟨rfl, rfl, rfl⟩, ?_, fun W => rfl, ?_, ?_, ?_⟩
  · funext i j
    have hf : fisherInfo x bv i j
        = ∑ l, x l i * logitWeights x bv l * x l j := by
      unfold fisherInfo
      rw [Matrix.mul_apply]
      simp only [Matrix.mul_diagonal, Matrix.transpose_apply]
    rw [hf]
    unfold varCovarInformation
    split_ifs <;> exact Finset.sum_congr rfl fun l _ => by ring
  · unfold newtonRaphson
    rw [if_neg hsucc]
    rfl
  · unfold newtonRaphson
    rw [if_neg hsucc]
    rfl
  · unfold newtonRaphson
    rw [if_neg hsucc]
    rfl

/-- Witness for C6 (amended) at the concrete converged fit (`cap 3`,
    `threshold 5`). -/
theorem wald_inference_formulas_witness :
    ((doLogit (BfgsOutcome.found b1Ex) yEx xTrainEx 3 5 initKmer).kmer.beta
        = some (b1Ex 1)
    ∧ (doLogit (BfgsOutcome.found b1Ex) yEx xTrainEx 3 5 initKmer).kmer.standard_error
      = some (Real.sqrt (varCovarMat
          (fun i j => Fin.cases 1 (fun j' => xTrainEx i j') j) b1Ex 1 1))
    ∧ (doLogit (BfgsOutcome.found b1Ex) yEx xTrainEx 3 5 initKmer).kmer.p_val
      = some (normalPval (|b1Ex 1| / Real.sqrt (varCovarMat
          (fun i j => Fin.cases 1 (fun j' => xTrainEx i j') j) b1Ex 1 1))))
    ∧ varCovarInformation xDesignEx b1Ex = fisherInfo xDesignEx b1Ex
    ∧ (∀ W, normalPval W = 2 * (1 - stdNormalCDF W))
    ∧ ((newtonRaphson yEx xDesignEx 3 5 initKmer).kmer.beta
        = some ((nrLoop (nrStep yEx xDesignEx) 5 3
            [nrStartingPoint 0 yEx]).headI 1)
    ∧ (newtonRaphson yEx xDesignEx 3 5 initKmer).kmer.standard_error
        = some (Real.sqrt (inv_covar (fisherInfo xDesignEx
            (nrLoop (nrStep yEx xDesignEx) 5 3
              [nrStartingPoint 0 yEx]).tail.headI) 1 1))
    ∧ (newtonRaphson yEx xDesignEx 3 5 initKmer).kmer.p_val
        = some (normalPval
            (|(nrLoop (nrStep yEx xDesignEx) 5 3
                [nrStartingPoint 0 yEx]).headI 1|
              / Real.sqrt (inv_covar (fisherInfo xDesignEx
                  (nrLoop (nrStep yEx xDesignEx) 5 3
                    [nrStartingPoint 0 yEx]).tail.headI) 1 1)))) :=
  wald_inference_formulas yEx xTrainEx b1Ex b1Ex xDesignEx 3 5 initKmer
    (by rw [nrStartingPoint_yEx, nrLoopEx 2]; norm_num)

end Seer

namespace Seer

/-- `newtonRaphsonFirth` with its starting point made explicit: the Firth
    stage is the firth loop run from `start`, with the size-check deciding
    between the `"firth-fail"` tag and reporting. -/
noncomputable def newtonRaphsonFirthFrom {n p : ℕ} (y : Fin n → ℝ)
    (start : Fin (p+2) → ℝ) (x : Matrix (Fin n) (Fin (p+2)) ℝ)
    (max_nr_iterations : ℕ) (convergence_limit : ℝ) (k : KmerState) :
    FitOutcome :=
  match nrLoopE (firthStep y x) convergence_limit max_nr_iterations [start] with
  | .error e => ⟨k, some e⟩
  | .ok iters =>
      if iters.length = max_nr_iterations then
        ⟨k.addComment "firth-fail", none⟩
      else ⟨nrReport x iters k, none⟩

/-- C8: for a response with mean strictly between 0 and 1, every stage's
    starting point has intercept `ln(m/(1−m))`; the gradient stage sets
    every remaining coefficient to 1 (lines 32-36), the Newton-Raphson
    stage — and the Firth stage, which `newtonRaphsonFirth` starts from
    the same `nrStartingPoint` — sets them to 0 (lines 91-92). -/
theorem starting_points_spec {n : ℕ} (p : ℕ) (y : Fin n → ℝ)
    (h0 : 0 < vecMean y) (h1 : vecMean y < 1) :
    bfgsStartingPoint p y 0 = Real.log (vecMean y / (1 - vecMean y))
    ∧ (∀ i : Fin (p+2), i ≠ 0 → bfgsStartingPoint p y i = 1)
    ∧ nrStartingPoint p y 0 = Real.log (vecMean y / (1 - vecMean y))
    ∧ (∀ i : Fin (p+2), i ≠ 0 → nrStartingPoint p y i = 0)
    ∧ (∀ (x : Matrix (Fin n) (Fin (p+2)) ℝ) (max : ℕ) (conv : ℝ) (k : KmerState),
        newtonRaphsonFirth y x max conv k
          = newtonRaphsonFirthFrom y (nrStartingPoint p y) x max conv k) := by
  refine ⟨rfl, fun i hi => ?_, rfl, fun i hi => ?_, fun x max conv k => rfl⟩
  · unfold bfgsStartingPoint
    rw [if_neg hi]
  · unfold nrStartingPoint
    rw [if_neg hi]

/-- Witness for C8 at the concrete response `(0, 1)` with mean `1/2`. -/
theorem starting_points_spec_witness :
    bfgsStartingPoint 0 yEx 0 = Real.log (vecMean yEx / (1 - vecMean yEx))
    ∧ (∀ i : Fin (0+2), i ≠ 0 → bfgsStartingPoint 0 yEx i = 1)
    ∧ nrStartingPoint 0 yEx 0 = Real.log (vecMean yEx / (1 - vecMean yEx))
    ∧ (∀ i : Fin (0+2), i ≠ 0 → nrStartingPoint 0 yEx i = 0)
    ∧ (∀ (x : Matrix (Fin 2) (Fin (0+2)) ℝ) (max : ℕ) (conv : ℝ) (k : KmerState),
        newtonRaphsonFirth yEx x max conv k
          = newtonRaphsonFirthFrom yEx (nrStartingPoint 0 yEx) x max conv k) :=
  starting_points_spec 0 yEx
    (by rw [vecMean_yEx]; norm_num) (by rw [vecMean_yEx]; norm_num)

/-! ### IEEE view of the starting intercept (C10) -/

/-- IEEE `log` of a double, as a finite value: `log 0 = -∞` and `log` of a
    negative argument is NaN, so `none` for any nonpositive argument. -/
noncomputable def finiteLog (x : ℝ) : Option ℝ :=
  if x ≤ 0 then none else some (Real.log x)

/-- IEEE division of finite doubles, as a finite value: division by zero
    gives `±∞` or NaN, so `none`. -/
noncomputable def finiteDiv (a b : ℝ) : Option ℝ :=
  if b = 0 then none else some (a / b)

/-- The starting intercept `log(mean(y)/(1 - mean(y)))` of lines 31 and 92
    under IEEE semantics: `none` when the double value is not finite. -/
noncomputable def startInterceptIEEE {n : ℕ} (y : Fin n → ℝ) : Option ℝ :=
  (finiteDiv (vecMean y) (1 - vecMean y)).bind finiteLog

/-- C10: for an all-zero or all-one response the starting intercept is not
    finite, and it is finite exactly when `0 < mean(y) < 1`; when finite it
    is the real-model value `ln(m/(1−m))`. -/
theorem startIntercept_needs_interior_mean {n : ℕ} (y : Fin n → ℝ)
    (hn : 0 < n) :
    ((∀ i, y i = 0) → startInterceptIEEE y = none)
    ∧ ((∀ i, y i = 1) → startInterceptIEEE y = none)
    ∧ (vecMean y = 0 ∨ vecMean y = 1 → startInterceptIEEE y = none)
    ∧ ((startInterceptIEEE y).isSome ↔ 0 < vecMean y ∧ vecMean y < 1)
    ∧ (∀ v, startInterceptIEEE y = some v → v = startIntercept y) := by
  have hmean0 : vecMean y = 0 → startInterceptIEEE y = none := by
    intro hm
    unfold startInterceptIEEE finiteDiv finiteLog
    rw [hm]
    norm_num
  have hmean1 : vecMean y = 1 → startInterceptIEEE y = none := by
    intro hm
    unfold startInterceptIEEE finiteDiv
    rw [hm]
    norm_num
  refine ⟨?_, ?_, ?_, ?_, ?_⟩
  · intro hy
    apply hmean0
    unfold vecMean
    rw [Finset.sum_congr rfl fun i _ => hy i]
    simp
  · intro hy
    apply hmean1
    unfold vecMean
    rw [Finset.sum_congr rfl fun i _ => hy i]
    rw [Finset.sum_const, Finset.card_univ, Fintype.card_fin]
    field_simp
  · rintro (hm | hm)
    · exact hmean0 hm
    · exact hmean1 hm
  · unfold startInterceptIEEE finiteDiv finiteLog
    by_cases hm : (1 : ℝ) - vecMean y = 0
    · rw [if_pos hm]
      simp only [Option.none_bind, Option.isSome_none]
      constructor
      · intro hc
        exact absurd hc (by norm_num)
      · rintro ⟨_, hlt⟩
        exfalso
        have : vecMean y = 1 := by linarith
        linarith
    · rw [if_neg hm]
      simp only [Option.some_bind]
      by_cases hq : vecMean y / (1 - vecMean y) ≤ 0
      · rw [if_pos hq]
        simp only [Option.isSome_none]
        constructor
        · intro hc
          exact absurd hc (by norm_num)
        · rintro ⟨hp, hlt⟩
          exfalso
          have hd : 0 < vecMean y / (1 - vecMean y) :=
            div_pos hp (by linarith)
          linarith
      · rw [if_neg hq]
        simp only [Option.isSome_some, true_iff]
        push_neg at hq
        rcases div_pos_iff.mp hq with ⟨hp, hd⟩ | ⟨hp, hd⟩
        · exact ⟨hp, by linarith⟩
        · exfalso
          linarith
  · intro v hv
    unfold startInterceptIEEE finiteDiv finiteLog at hv
    by_cases hm : (1 : ℝ) - vecMean y = 0
    · rw [if_pos hm] at hv
      exact absurd hv (by simp)
    · rw [if_neg hm] at hv
      simp only [Option.some_bind] at hv
      by_cases hq : vecMean y / (1 - vecMean y) ≤ 0
      · rw [if_pos hq] at hv
        exact absurd hv (by simp)
      · rw [if_neg hq] at hv
        have := Option.some.inj hv
        rw [← this]
        rfl

end Seer

namespace Seer

/-- The all-zero response over two samples. -/
noncomputable def y0Ex : Fin 2 → ℝ := fun _ => 0

/-- Witness for C10 at the all-zero response over two samples. -/
theorem startIntercept_needs_interior_mean_witness :
    ((∀ i, y0Ex i = 0) → startInterceptIEEE y0Ex = none)
    ∧ ((∀ i, y0Ex i = 1) → startInterceptIEEE y0Ex = none)
    ∧ (vecMean y0Ex = 0 ∨ vecMean y0Ex = 1 → startInterceptIEEE y0Ex = none)
    ∧ ((startInterceptIEEE y0Ex).isSome ↔ 0 < vecMean y0Ex ∧ vecMean y0Ex < 1)
    ∧ (∀ v, startInterceptIEEE y0Ex = some v → v = startIntercept y0Ex) :=
  startIntercept_needs_interior_mean y0Ex (by norm_num)

end Seer
